import Mathlib

/-!
Verification of the zPBPTool container codec (src/main.c) against its
natural-language specification.

The program manipulates PBP container files: a 40-byte header
(4 signature bytes, two little-endian u16 version fields, eight
little-endian u32 offsets) followed by up to eight concatenated segments.

Shallow embedding conventions:
* a file's bytes are a `List Nat` (each entry one byte);
* fatal paths (`exit(1)`) become `Except.error`/`none`;
* `uint32_t` arithmetic is `Nat` arithmetic with explicit `% 4294967296`
  exactly where the C source casts or accumulates in 32 bits;
* the filesystem always succeeds on writes and `mkdir` (those failures are
  environment conditions outside the claims considered here).
-/

/-- The 40-byte PBP header (`PBPHeader` in main.c): 4 signature bytes,
two 16-bit version fields, eight 32-bit segment offsets, each field kept
as a list of `Nat` values mirroring the C arrays. -/
structure PBPHeader where
  signature : List Nat
  version : List Nat
  offset : List Nat
deriving DecidableEq, Repr

/-- Validator `validate_header` (main.c lines 55-64).  Returns 0 on success,
-1 for a bad signature (bytes 1..3 must be 'P'=80, 'B'=66, 'P'=80) and
-2 for a bad version (`version[1] != 1 && version[0] != 0`). -/
def validate_header (h : PBPHeader) : Int :=
  if h.signature.getD 1 0 ≠ 80 ∨ h.signature.getD 2 0 ≠ 66 ∨ h.signature.getD 3 0 ≠ 80 then
    -1
  else if h.version.getD 1 0 ≠ 1 ∧ h.version.getD 0 0 ≠ 0 then
    -2
  else
    0

/-- Little-endian serialization of a 16-bit field (the wire format of
`uint16_t version[2]`, spec §4.1). -/
def le16 (v : Nat) : List Nat := [v % 256, v / 256 % 256]

/-- Little-endian serialization of a 32-bit field (the wire format of
`uint32_t offset[8]`, spec §4.1). -/
def le32 (v : Nat) : List Nat :=
  [v % 256, v / 256 % 256, v / 65536 % 256, v / 16777216 % 256]

/-- The 40 bytes the program writes for a header (`fwrite(&header, ...)`,
packed struct layout of main.c lines 20-26, little-endian fields). -/
def headerBytes (h : PBPHeader) : List Nat :=
  h.signature ++ (h.version.map le16).flatten ++ (h.offset.map le32).flatten

/-- Read a little-endian u16 at position `p` of a byte list. -/
def readU16 (bs : List Nat) (p : Nat) : Nat :=
  bs.getD p 0 + 256 * bs.getD (p + 1) 0

/-- Read a little-endian u32 at position `p` of a byte list. -/
def readU32 (bs : List Nat) (p : Nat) : Nat :=
  bs.getD p 0 + 256 * bs.getD (p + 1) 0 + 65536 * bs.getD (p + 2) 0 +
    16777216 * bs.getD (p + 3) 0

/-- Parsing the leading 40 bytes of a file into a `PBPHeader`
(`fread(&header, 1, sizeof(header), f)` into the packed struct). -/
def parseHeader (bs : List Nat) : PBPHeader :=
  { signature := [bs.getD 0 0, bs.getD 1 0, bs.getD 2 0, bs.getD 3 0]
    version := [readU16 bs 4, readU16 bs 6]
    offset := [readU32 bs 8, readU32 bs 12, readU32 bs 16, readU32 bs 20,
               readU32 bs 24, readU32 bs 28, readU32 bs 32, readU32 bs 36] }

/-- The Offset Resolver of `unpack_pbp` (main.c lines 160-170): the
computed byte length of segment `i` given the offset table and the total
file length.  For `i = 7` the C code compares against
`(uint32_t)file_len`, hence the `% 4294967296`. -/
def segFileSize (offsets : List Nat) (fileLen : Nat) (i : Nat) : Nat :=
  if i + 1 < 8 then
    if offsets.getD (i + 1) 0 > offsets.getD i 0 then
      offsets.getD (i + 1) 0 - offsets.getD i 0
    else 0
  else
    if fileLen % 4294967296 > offsets.getD i 0 then
      fileLen % 4294967296 - offsets.getD i 0
    else 0

/-- Outcome of one iteration of the extraction loop of `unpack_pbp` for
one segment: `absent` is the silent `continue` when the computed size is 0
(main.c line 172), `skipped` is the "Skipping ...: invalid offset/size"
diagnostic path (line 176), `written bs` means a file holding `bs` was
written (lines 180-191). -/
inductive SegResult where
  | absent : SegResult
  | skipped : SegResult
  | written : List Nat → SegResult
deriving DecidableEq, Repr

/-- One iteration of the extraction loop of `unpack_pbp`
(main.c lines 160-192).  `file` is the entire input file, which is what
the C code loads into `content` (it rewinds to position 0 before the bulk
`fread`), and `corrected_offset = (long)offset - 40`. -/
def extractSeg (h : PBPHeader) (file : List Nat) (i : Nat) : SegResult :=
  let fs := segFileSize h.offset file.length i
  if fs = 0 then
    SegResult.absent
  else
    let co : Int := (h.offset.getD i 0 : Int) - 40
    if co < 0 then SegResult.skipped
    else if co.toNat + fs > file.length then SegResult.skipped
    else SegResult.written ((file.drop co.toNat).take fs)

/-- Model of `unpack_pbp` (main.c lines 122-195) on the bytes of the input file.
`Except.error` models the fatal `exit(1)` paths (header unreadable,
validation failure); `Except.ok res` models a run that reaches the
extraction loop and terminates normally (process exit code 0), with one
`SegResult` per segment index 0..7. -/
def unpack_pbp (file : List Nat) : Except String (List SegResult) :=
  if file.length < 40 then Except.error "Failed to read header"
  else
    let h := parseHeader file
    if validate_header h ≠ 0 then Except.error "Header validation failed"
    else Except.ok ((List.range 8).map (extractSeg h file))

/-- Whether `analyze_file` (main.c lines 89-97) reports slot `i` as
present (prints its offset) rather than as `NULL`: the C condition is
`i + 1 < 8 && header.offset[i + 1] > offset`. -/
def analyzePresent (h : PBPHeader) (i : Nat) : Bool :=
  decide (i + 1 < 8) && decide (h.offset.getD (i + 1) 0 > h.offset.getD i 0)

/-- Model of `analyze_file` (main.c lines 66-100) on the bytes of the input file:
fatal on a short or invalid header, otherwise the per-slot presence
report of the offsets loop. -/
def analyze_file (file : List Nat) : Except String (List Bool) :=
  if file.length < 40 then Except.error "Failed to read header"
  else
    let h := parseHeader file
    if validate_header h ≠ 0 then Except.error "Header validation failed"
    else Except.ok ((List.range 8).map (analyzePresent h))

/-- One source-slot argument of `pack`: the literal `"NULL"` sentinel, or
a path whose contents `read_file_to_buffer` returns (`some bs`), or a
path that cannot be read (`none`, the `!buf` branch of main.c line 220). -/
inductive SrcSpec where
  | null : SrcSpec
  | file : Option (List Nat) → SrcSpec
deriving DecidableEq, Repr

/-- The bytes a slot contributes to the packed body: nothing for `NULL`
or an unreadable path, the file contents otherwise. -/
def srcBytes : SrcSpec → List Nat
  | SrcSpec.null => []
  | SrcSpec.file none => []
  | SrcSpec.file (some bs) => bs

/-- The input-reading loop of `pack_pbp` (main.c lines 210-228): walks
the slots with the running `uint32_t curr_offset`, recording for each
slot its stored offset and its buffered contents; `none` models the
fatal `exit(1)` on an unreadable source file, which happens before any
output is produced.  `curr_offset += (uint32_t)len` is 32-bit
arithmetic, hence the `% 4294967296`. -/
def packLoop : List SrcSpec → Nat → Option (List (Nat × List Nat))
  | [], _ => some []
  | SrcSpec.null :: rest, curr =>
      (packLoop rest curr).map (fun segs => (curr, []) :: segs)
  | SrcSpec.file none :: _, _ => none
  | SrcSpec.file (some bs) :: rest, curr =>
      (packLoop rest ((curr + bs.length % 4294967296) % 4294967296)).map
        (fun segs => (curr, bs) :: segs)

/-- The header `pack_pbp` builds (main.c lines 198-212): fixed signature
`{0,'P','B','P'}`, fixed version `{0,1}`, offsets from the reading loop. -/
def packHeader (segs : List (Nat × List Nat)) : PBPHeader :=
  { signature := [0, 80, 66, 80]
    version := [0, 1]
    offset := segs.map Prod.fst }

/-- Model of `pack_pbp` (main.c lines 197-254): `none` is the fatal exit on an
unreadable source (no destination file is created), `some (h, body)`
is a successful run that writes `headerBytes h` followed by `body`
(the buffered segment contents concatenated in slot order). -/
def pack_pbp (inputs : List SrcSpec) : Option (PBPHeader × List Nat) :=
  (packLoop inputs 40).map (fun segs =>
    (packHeader segs, (segs.map Prod.snd).flatten))

/-- The full byte contents of the destination file written by a
successful `pack_pbp` (header then body, main.c lines 237-250). -/
def packFile (inputs : List SrcSpec) : Option (List Nat) :=
  (pack_pbp inputs).map (fun p => headerBytes p.1 ++ p.2)

/-- The stored offsets of a successful `pack_pbp`. -/
def packOffsets (inputs : List SrcSpec) : Option (List Nat) :=
  (packLoop inputs 40).map (List.map Prod.fst)

/-- Eight readable one-byte source files `[1]`, `[2]`, ..., `[8]`
(a concrete full `pack` invocation with no `NULL` slot). -/
def rtInputs : List SrcSpec :=
  [SrcSpec.file (some [1]), SrcSpec.file (some [2]), SrcSpec.file (some [3]),
   SrcSpec.file (some [4]), SrcSpec.file (some [5]), SrcSpec.file (some [6]),
   SrcSpec.file (some [7]), SrcSpec.file (some [8])]

/-- The container `pack_pbp` writes for `rtInputs`: the 40-byte header
(offsets 40..47) followed by the eight segment bytes 1..8. -/
def rtFileBytes : List Nat :=
  [0, 80, 66, 80, 0, 0, 1, 0,
   40, 0, 0, 0, 41, 0, 0, 0, 42, 0, 0, 0, 43, 0, 0, 0,
   44, 0, 0, 0, 45, 0, 0, 0, 46, 0, 0, 0, 47, 0, 0, 0,
   1, 2, 3, 4, 5, 6, 7, 8]

/-- The scenario inputs of the spec: a 1-byte `PARAM.SFO` (`[9]`), six
`NULL` slots, and a 1-byte `DATA.PSAR` (`[7]`). -/
def c4Inputs : List SrcSpec :=
  [SrcSpec.file (some [9]), SrcSpec.null, SrcSpec.null, SrcSpec.null,
   SrcSpec.null, SrcSpec.null, SrcSpec.null, SrcSpec.file (some [7])]

/-- The container `pack_pbp` writes for `c4Inputs`: offsets
`[40, 41, 41, 41, 41, 41, 41, 41]` and body `[9, 7]`. -/
def c4FileBytes : List Nat :=
  [0, 80, 66, 80, 0, 0, 1, 0,
   40, 0, 0, 0, 41, 0, 0, 0, 41, 0, 0, 0, 41, 0, 0, 0,
   41, 0, 0, 0, 41, 0, 0, 0, 41, 0, 0, 0, 41, 0, 0, 0,
   9, 7]

/-- The 40-byte header-only container produced by packing eight `NULL`
slots (all offsets 40). -/
def c8FileBytes : List Nat :=
  [0, 80, 66, 80, 0, 0, 1, 0,
   40, 0, 0, 0, 40, 0, 0, 0, 40, 0, 0, 0, 40, 0, 0, 0,
   40, 0, 0, 0, 40, 0, 0, 0, 40, 0, 0, 0, 40, 0, 0, 0]

/-- A valid 42-byte container with segment 0 at offset 40 (one byte `5`)
and segment 7 at offset 41 (one byte `6`); offsets
`[40, 41, 41, 41, 41, 41, 41, 41]`.  Truncating it to 40 bytes makes
`file_length < offsets[7]`. -/
def c6FileBytes : List Nat :=
  [0, 80, 66, 80, 0, 0, 1, 0,
   40, 0, 0, 0, 41, 0, 0, 0, 41, 0, 0, 0, 41, 0, 0, 0,
   41, 0, 0, 0, 41, 0, 0, 0, 41, 0, 0, 0, 41, 0, 0, 0,
   5, 6]

/-- A 40-byte valid-header container whose offset table
`[0, 10, 10, 10, 10, 10, 10, 10]` gives segment 0 a nonzero length with
a negative corrected offset, and segment 7 a nonzero length with a
negative corrected offset as well. -/
def c7FileBytes : List Nat :=
  [0, 80, 66, 80, 0, 0, 1, 0,
   0, 0, 0, 0, 10, 0, 0, 0, 10, 0, 0, 0, 10, 0, 0, 0,
   10, 0, 0, 0, 10, 0, 0, 0, 10, 0, 0, 0, 10, 0, 0, 0]

/-- A `pack` invocation whose first source file has 4294967257 bytes, so
that `curr_offset` (32-bit) wraps past `2 ^ 32` after slot 0. -/
def c9CexInputs : List SrcSpec :=
  [SrcSpec.file (some (List.replicate 4294967257 0)), SrcSpec.null,
   SrcSpec.null, SrcSpec.null, SrcSpec.null, SrcSpec.null, SrcSpec.null,
   SrcSpec.null]

/-- A header with valid signature and version `{5, 0}`
(`version[0] = 5`, `version[1] = 0`). -/
def c3CexHeader : PBPHeader :=
  { signature := [0, 80, 66, 80], version := [5, 0],
    offset := [40, 40, 40, 40, 40, 40, 40, 40] }

/-- A header with signature `[7, 'P', 'B', 'P']` and version `{0, 1}`. -/
def c3WitHeader : PBPHeader :=
  { signature := [7, 80, 66, 80], version := [0, 1],
    offset := [40, 40, 40, 40, 40, 40, 40, 40] }

/-- The header `pack_pbp` writes for `c4Inputs`. -/
def c4Header : PBPHeader :=
  { signature := [0, 80, 66, 80], version := [0, 1],
    offset := [40, 41, 41, 41, 41, 41, 41, 41] }

/-- A small successful `pack` invocation: a 1-byte file in slot 0, the
other seven slots `NULL`. -/
def c9WitInputs : List SrcSpec :=
  [SrcSpec.file (some [5]), SrcSpec.null, SrcSpec.null, SrcSpec.null,
   SrcSpec.null, SrcSpec.null, SrcSpec.null, SrcSpec.null]

/-- The header `pack_pbp` writes for `c9WitInputs`. -/
def c9WitHeader : PBPHeader :=
  { signature := [0, 80, 66, 80], version := [0, 1],
    offset := [40, 41, 41, 41, 41, 41, 41, 41] }

/-- A small successful `pack` invocation: a 2-byte file in slot 0, a
1-byte file in slot 7, the other slots `NULL`. -/
def c10WitInputs : List SrcSpec :=
  [SrcSpec.file (some [1, 2]), SrcSpec.null, SrcSpec.null, SrcSpec.null,
   SrcSpec.null, SrcSpec.null, SrcSpec.null, SrcSpec.file (some [3])]

/-- The header `pack_pbp` writes for `c10WitInputs`. -/
def c10WitHeader : PBPHeader :=
  { signature := [0, 80, 66, 80], version := [0, 1],
    offset := [40, 42, 42, 42, 42, 42, 42, 42] }

/-! ### General helper lemmas -/

theorem getD_take_of_lt (l : List Nat) (L k : Nat) (h : k < L) :
    (l.take L).getD k 0 = l.getD k 0 := by
  rw [List.getD_eq_getElem?_getD, List.getD_eq_getElem?_getD,
    List.getElem?_take_of_lt h]

theorem parseHeader_take_forty (bs : List Nat) :
    parseHeader (bs.take 40) = parseHeader bs := by
  simp [parseHeader, readU32, readU16, getD_take_of_lt]

theorem parseHeader_take (file : List Nat) (L : Nat) (hL : 40 ≤ L) :
    parseHeader (file.take L) = parseHeader file := by
  have h1 : (file.take L).take 40 = file.take 40 := by
    rw [List.take_take]
    congr 1
    omega
  calc parseHeader (file.take L) = parseHeader ((file.take L).take 40) :=
        (parseHeader_take_forty _).symm
    _ = parseHeader (file.take 40) := by rw [h1]
    _ = parseHeader file := parseHeader_take_forty file

theorem range_eight_map_getD {α : Type} (f : Nat → α) (i : Nat) (d : α)
    (h : i < 8) : ((List.range 8).map f).getD i d = f i := by
  rw [List.getD_eq_getElem?_getD, List.getElem?_map]
  simp [List.getElem?_range, h]

theorem flatten_le32_length (os : List Nat) :
    ((os.map le32).flatten).length = 4 * os.length := by
  induction os with
  | nil => simp
  | cons o os ih => simp [le32] at ih ⊢; omega

theorem flatten_srcBytes_length (l : List SrcSpec) :
    ((l.map srcBytes).flatten).length =
      (l.map fun s => (srcBytes s).length).sum := by
  rw [List.length_flatten, List.map_map]
  rfl

/-! ### Structure of the `pack_pbp` reading loop -/

theorem packLoop_length (l : List SrcSpec) :
    ∀ (curr : Nat) (segs : List (Nat × List Nat)),
      packLoop l curr = some segs → segs.length = l.length := by
  induction l with
  | nil =>
    intro curr segs h
    simp [packLoop] at h
    simp [← h]
  | cons s rest ih =>
    intro curr segs h
    cases s with
    | null =>
      rw [packLoop, Option.map_eq_some'] at h
      obtain ⟨segs', h1, h2⟩ := h
      simp [← h2, ih curr segs' h1]
    | file ob =>
      cases ob with
      | none => simp [packLoop] at h
      | some bs =>
        rw [packLoop, Option.map_eq_some'] at h
        obtain ⟨segs', h1, h2⟩ := h
        simp [← h2, ih _ segs' h1]

theorem packLoop_snd (l : List SrcSpec) :
    ∀ (curr : Nat) (segs : List (Nat × List Nat)),
      packLoop l curr = some segs → segs.map Prod.snd = l.map srcBytes := by
  induction l with
  | nil =>
    intro curr segs h
    simp [packLoop] at h
    simp [← h]
  | cons s rest ih =>
    intro curr segs h
    cases s with
    | null =>
      rw [packLoop, Option.map_eq_some'] at h
      obtain ⟨segs', h1, h2⟩ := h
      simp [← h2, srcBytes, ih curr segs' h1]
    | file ob =>
      cases ob with
      | none => simp [packLoop] at h
      | some bs =>
        rw [packLoop, Option.map_eq_some'] at h
        obtain ⟨segs', h1, h2⟩ := h
        simp [← h2, srcBytes, ih _ segs' h1]

theorem packLoop_none (l : List SrcSpec) :
    ∀ (curr : Nat), SrcSpec.file none ∈ l → packLoop l curr = none := by
  induction l with
  | nil => intro curr h; simp at h
  | cons s rest ih =>
    intro curr h
    cases s with
    | null =>
      have hr : SrcSpec.file none ∈ rest := by
        rcases List.mem_cons.mp h with h1 | h1
        · exact absurd h1 (by simp)
        · exact h1
      rw [packLoop, ih curr hr]
      rfl
    | file ob =>
      cases ob with
      | none => rw [packLoop]
      | some bs =>
        have hr : SrcSpec.file none ∈ rest := by
          rcases List.mem_cons.mp h with h1 | h1
          · exact absurd h1 (by simp)
          · exact h1
        rw [packLoop, ih _ hr]
        rfl

theorem packLoop_head (s : SrcSpec) (rest : List SrcSpec) (curr : Nat)
    (segs : List (Nat × List Nat)) (h : packLoop (s :: rest) curr = some segs) :
    ∃ bs tail, segs = (curr, bs) :: tail := by
  cases s with
  | null =>
    rw [packLoop, Option.map_eq_some'] at h
    obtain ⟨segs', _, h2⟩ := h
    exact ⟨[], segs', h2.symm⟩
  | file ob =>
    cases ob with
    | none => simp [packLoop] at h
    | some bs =>
      rw [packLoop, Option.map_eq_some'] at h
      obtain ⟨segs', _, h2⟩ := h
      exact ⟨bs, segs', h2.symm⟩

theorem packLoop_chain (l : List SrcSpec) :
    ∀ (curr : Nat) (segs : List (Nat × List Nat)),
      packLoop l curr = some segs →
      curr + (l.map fun s => (srcBytes s).length).sum < 4294967296 →
      List.Chain' (· ≤ ·) (segs.map Prod.fst) := by
  induction l with
  | nil =>
    intro curr segs h _
    simp [packLoop] at h
    subst h
    simp
  | cons s rest ih =>
    intro curr segs h hbound
    cases s with
    | null =>
      rw [packLoop, Option.map_eq_some'] at h
      obtain ⟨segs', h1, h2⟩ := h
      subst h2
      simp only [List.map_cons]
      rw [List.chain'_cons']
      refine ⟨?_, ih curr segs' h1 ?_⟩
      · intro b hb
        cases rest with
        | nil =>
          simp [packLoop] at h1
          subst h1
          simp at hb
        | cons r rest' =>
          obtain ⟨bs', tail, ht⟩ := packLoop_head r rest' curr segs' h1
          subst ht
          simp at hb
          omega
      · simp [srcBytes] at hbound ⊢
        omega
    | file ob =>
      cases ob with
      | none => simp [packLoop] at h
      | some bs =>
        rw [packLoop, Option.map_eq_some'] at h
        obtain ⟨segs', h1, h2⟩ := h
        subst h2
        have hmod : bs.length % 4294967296 ≤ bs.length :=
          Nat.mod_le bs.length 4294967296
        have hsum : (List.map (fun s => (srcBytes s).length) (SrcSpec.file (some bs) :: rest)).sum
            = bs.length + (List.map (fun s => (srcBytes s).length) rest).sum := by
          simp [srcBytes]
        rw [hsum] at hbound
        have hcurr : (curr + bs.length % 4294967296) % 4294967296
            = curr + bs.length % 4294967296 := by
          apply Nat.mod_eq_of_lt
          omega
        simp only [List.map_cons]
        rw [List.chain'_cons']
        refine ⟨?_, ih _ segs' h1 ?_⟩
        · intro b hb
          cases rest with
          | nil =>
            simp [packLoop] at h1
            subst h1
            simp at hb
          | cons r rest' =>
            obtain ⟨bs', tail, ht⟩ := packLoop_head r rest' _ segs' h1
            subst ht
            simp at hb
            omega
        · omega

theorem packLoop_null_slot (l : List SrcSpec) :
    ∀ (curr : Nat) (segs : List (Nat × List Nat)) (i : Nat),
      packLoop l curr = some segs → i + 1 < l.length →
      l.getD i SrcSpec.null = SrcSpec.null →
      (segs.map Prod.fst).getD (i + 1) 0 = (segs.map Prod.fst).getD i 0 := by
  induction l with
  | nil => intro curr segs i _ hlt _; simp at hlt
  | cons s rest ih =>
    intro curr segs i h hlt hnull
    cases i with
    | zero =>
      have hs : s = SrcSpec.null := by simpa using hnull
      subst hs
      rw [packLoop, Option.map_eq_some'] at h
      obtain ⟨segs', h1, h2⟩ := h
      subst h2
      cases rest with
      | nil => simp at hlt
      | cons r rest' =>
        obtain ⟨bs', tail, ht⟩ := packLoop_head r rest' curr segs' h1
        subst ht
        simp
    | succ j =>
      have hr : ∃ c' segs', packLoop rest c' = some segs' ∧
          segs.map Prod.fst = curr :: segs'.map Prod.fst := by
        cases s with
        | null =>
          rw [packLoop, Option.map_eq_some'] at h
          obtain ⟨segs', h1, h2⟩ := h
          exact ⟨curr, segs', h1, by simp [← h2]⟩
        | file ob =>
          cases ob with
          | none => simp [packLoop] at h
          | some bs =>
            rw [packLoop, Option.map_eq_some'] at h
            obtain ⟨segs', h1, h2⟩ := h
            exact ⟨_, segs', h1, by simp [← h2]⟩
      obtain ⟨c', segs', h1, h2⟩ := hr
      rw [h2, List.getD_cons_succ, List.getD_cons_succ]
      apply ih c' segs' j h1
      · simpa using hlt
      · simpa using hnull

theorem pack_pbp_inv (inputs : List SrcSpec) (h : PBPHeader) (body : List Nat)
    (hp : pack_pbp inputs = some (h, body)) :
    ∃ segs, packLoop inputs 40 = some segs ∧ h = packHeader segs ∧
      body = (segs.map Prod.snd).flatten := by
  unfold pack_pbp at hp
  cases hpl : packLoop inputs 40 with
  | none => rw [hpl] at hp; simp at hp
  | some segs =>
    rw [hpl] at hp
    simp at hp
    exact ⟨segs, rfl, hp.1.symm, hp.2.symm⟩

theorem headerBytes_packHeader_length (segs : List (Nat × List Nat))
    (hlen : segs.length = 8) : (headerBytes (packHeader segs)).length = 40 := by
  unfold headerBytes packHeader
  rw [List.length_append, List.length_append, flatten_le32_length,
    List.length_map, hlen]
  simp [le16]

/-! ### Claims -/

/-- Claim C1 (code bug): packing eight non-empty one-byte files and
unpacking the resulting container does NOT reproduce the originals.
`unpack_pbp` loads the whole file (header included) into its buffer but
indexes it with `corrected_offset = offset - 40`, so every segment is
extracted 40 bytes too early: segment 0 (original contents `[1]`)
comes back as `[0]`, the first byte of the header. -/
theorem c1_roundtrip_bug :
    packFile rtInputs = some rtFileBytes ∧
    unpack_pbp rtFileBytes =
      Except.ok [SegResult.written [0], SegResult.written [80],
        SegResult.written [66], SegResult.written [80], SegResult.written [0],
        SegResult.written [0], SegResult.written [1], SegResult.written [0]] ∧
    srcBytes (rtInputs.getD 0 SrcSpec.null) = [1] ∧
    SegResult.written ([0] : List Nat) ≠ SegResult.written [1] :=
  ⟨rfl, rfl, rfl, by decide⟩

/-- Claim C4 (code bug): the spec scenario
`pack out.bin a.sfo NULL NULL NULL NULL NULL NULL data.bin` with 1-byte
sources.  The written offsets are `{40, 41, 41, 41, 41, 41, 41, 41}`
exactly as claimed, and the file really contains a segment 7 (the
resolver used by `unpack_pbp` gives it length 1), but `analyze_file`
reports segment 7 as `NULL`: its presence test requires `i + 1 < 8`,
which is false for `i = 7`, so slot 7 can never be reported present. -/
theorem c4_scenario_bug :
    pack_pbp c4Inputs = some (c4Header, [9, 7]) ∧
    c4Header.offset = [40, 41, 41, 41, 41, 41, 41, 41] ∧
    packFile c4Inputs = some c4FileBytes ∧
    segFileSize c4Header.offset c4FileBytes.length 7 = 1 ∧
    analyze_file c4FileBytes =
      Except.ok [true, false, false, false, false, false, false, false] :=
  ⟨rfl, rfl, rfl, rfl, rfl⟩

/-- Claim C8: packing with all eight slots `NULL` yields a 40-byte
header-only file (all offsets 40), and `analyze_file` on it reports all
eight segments absent. -/
theorem c8_all_null :
    packFile [SrcSpec.null, SrcSpec.null, SrcSpec.null, SrcSpec.null,
      SrcSpec.null, SrcSpec.null, SrcSpec.null, SrcSpec.null] =
      some c8FileBytes ∧
    c8FileBytes.length = 40 ∧
    analyze_file c8FileBytes =
      Except.ok [false, false, false, false, false, false, false, false] :=
  ⟨rfl, rfl, rfl⟩

/-- Claim C3, counterexample: the claim says version `{5, 0}`
(`version[0] = 5`, `version[1] = 0`) is accepted, but `validate_header`
rejects it with the InvalidVersion error (-2), because
`version[1] != 1 && version[0] != 0` holds. -/
theorem c3_validator_cex :
    validate_header c3CexHeader = -2 ∧ validate_header c3CexHeader ≠ 0 := by
  refine ⟨rfl, ?_⟩
  intro hcontra
  simp [validate_header, c3CexHeader] at hcontra

/-- Claim C3, amended: for every header whose signature bytes 1..3 are
'P','B','P', validation succeeds iff `version[1] = 1` or
`version[0] = 0` (signature byte 0 unconstrained); in particular
version `{0, 1}` and version `{0, 5}` are accepted and version `{5, 2}`
is rejected with the InvalidVersion error (-2). -/
theorem c3_validator (h : PBPHeader) (hs1 : h.signature.getD 1 0 = 80)
    (hs2 : h.signature.getD 2 0 = 66) (hs3 : h.signature.getD 3 0 = 80) :
    (validate_header h = 0 ↔
      (h.version.getD 1 0 = 1 ∨ h.version.getD 0 0 = 0)) ∧
    (h.version = [0, 1] → validate_header h = 0) ∧
    (h.version = [0, 5] → validate_header h = 0) ∧
    (h.version = [5, 2] → validate_header h = -2) := by
  have hsig : ¬ (h.signature.getD 1 0 ≠ 80 ∨ h.signature.getD 2 0 ≠ 66 ∨
      h.signature.getD 3 0 ≠ 80) := by
    push_neg
    exact ⟨hs1, hs2, hs3⟩
  refine ⟨?_, ?_, ?_, ?_⟩
  · by_cases hv : h.version.getD 1 0 ≠ 1 ∧ h.version.getD 0 0 ≠ 0
    · rw [validate_header, if_neg hsig, if_pos hv]
      constructor
      · intro habs
        exact absurd habs (by decide)
      · intro hor
        rcases hor with h1 | h1
        · exact absurd h1 hv.1
        · exact absurd h1 hv.2
    · rw [validate_header, if_neg hsig, if_neg hv]
      constructor
      · intro _
        by_contra hnor
        push_neg at hnor
        exact hv ⟨hnor.1, hnor.2⟩
      · intro _
        rfl
  · intro hveq
    rw [validate_header, if_neg hsig, hveq]
    simp
  · intro hveq
    rw [validate_header, if_neg hsig, hveq]
    simp
  · intro hveq
    rw [validate_header, if_neg hsig, hveq]
    simp

/-- Claim C3, witness: the amended theorem applied to the concrete
header with signature `[7, 'P', 'B', 'P']` and version `{0, 1}`. -/
theorem c3_validator_witness :
    (validate_header c3WitHeader = 0 ↔
      (c3WitHeader.version.getD 1 0 = 1 ∨ c3WitHeader.version.getD 0 0 = 0)) ∧
    (c3WitHeader.version = [0, 1] → validate_header c3WitHeader = 0) ∧
    (c3WitHeader.version = [0, 5] → validate_header c3WitHeader = 0) ∧
    (c3WitHeader.version = [5, 2] → validate_header c3WitHeader = -2) :=
  c3_validator c3WitHeader (by decide) (by decide) (by decide)

/-- Claim C5: if any non-`NULL` source slot is unreadable, `pack_pbp`
fails fatally (`none`: the process exits with code 1 during the reading
loop, before the destination file is even created, so no destination
byte and no buffered segment is ever written). -/
theorem c5_pack_atomic (inputs : List SrcSpec) (hlen : inputs.length = 8)
    (i : Nat) (hi : i < 8)
    (hbad : inputs.getD i SrcSpec.null = SrcSpec.file none) :
    pack_pbp inputs = none := by
  have hmem : SrcSpec.file none ∈ inputs := by
    have hi' : i < inputs.length := by omega
    rw [List.getD_eq_getElem inputs SrcSpec.null hi'] at hbad
    rw [← hbad]
    exact List.getElem_mem hi'
  unfold pack_pbp
  rw [packLoop_none inputs 40 hmem]
  rfl

/-- Claim C5, witness: the theorem applied to an invocation whose first
slot is an unreadable file and the rest are `NULL`. -/
theorem c5_pack_atomic_witness :
    pack_pbp [SrcSpec.file none, SrcSpec.null, SrcSpec.null, SrcSpec.null,
      SrcSpec.null, SrcSpec.null, SrcSpec.null, SrcSpec.null] = none :=
  c5_pack_atomic
    [SrcSpec.file none, SrcSpec.null, SrcSpec.null, SrcSpec.null,
      SrcSpec.null, SrcSpec.null, SrcSpec.null, SrcSpec.null]
    (by decide) 0 (by decide) (by decide)

/-- Claim C2, counterexample: the claim quantifies over every total file
length, but for `file_length = 4294967296` (and all offsets 0) the code
computes segment 7 as absent (because it compares `(uint32_t)file_len`,
which wraps to 0), while the claimed condition
`file_length <= offsets[7]` is false, i.e. the claim calls it present
with length 4294967296. -/
theorem c2_presence_law_cex :
    segFileSize [0, 0, 0, 0, 0, 0, 0, 0] 4294967296 7 = 0 ∧
    ¬ ((4294967296 : Nat) ≤ [0, 0, 0, 0, 0, 0, 0, 0].getD 7 0) := by
  decide

/-- Claim C2, amended: for every 8-entry offset table and total file
length below `2 ^ 32`, segment `i` is treated as absent by the
extraction loop exactly when its computed length is 0; for `i < 7` that
holds iff `offsets[i+1] <= offsets[i]`, for `i = 7` iff
`file_length <= offsets[7]`; otherwise the segment is present with
length `offsets[i+1] - offsets[i]` (resp. `file_length - offsets[7]`). -/
theorem c2_presence_law (offsets : List Nat) (fileLen : Nat) (i : Nat)
    (_hoff : offsets.length = 8) (hfl : fileLen < 4294967296) (hi : i < 8) :
    (i < 7 → (segFileSize offsets fileLen i = 0 ↔
      offsets.getD (i + 1) 0 ≤ offsets.getD i 0)) ∧
    (i = 7 → (segFileSize offsets fileLen i = 0 ↔
      fileLen ≤ offsets.getD 7 0)) ∧
    (∀ (h : PBPHeader) (file : List Nat), h.offset = offsets →
      file.length = fileLen →
      (extractSeg h file i = SegResult.absent ↔
        segFileSize offsets fileLen i = 0)) ∧
    (i < 7 → segFileSize offsets fileLen i ≠ 0 →
      segFileSize offsets fileLen i =
        offsets.getD (i + 1) 0 - offsets.getD i 0) ∧
    (i = 7 → segFileSize offsets fileLen i ≠ 0 →
      segFileSize offsets fileLen i = fileLen - offsets.getD 7 0) := by
  have hmod : fileLen % 4294967296 = fileLen := Nat.mod_eq_of_lt hfl
  refine ⟨?_, ?_, ?_, ?_, ?_⟩
  · intro h7
    rw [segFileSize, if_pos (by omega : i + 1 < 8)]
    by_cases hgt : offsets.getD (i + 1) 0 > offsets.getD i 0
    · rw [if_pos hgt]
      omega
    · rw [if_neg hgt]
      omega
  · intro h7
    subst h7
    rw [segFileSize, if_neg (by omega : ¬ (7 + 1 < 8)), hmod]
    by_cases hgt : fileLen > offsets.getD 7 0
    · rw [if_pos hgt]
      omega
    · rw [if_neg hgt]
      omega
  · intro h file hho hfile
    unfold extractSeg
    rw [hho, hfile]
    by_cases hfs : segFileSize offsets fileLen i = 0
    · simp [hfs]
    · simp only [hfs, if_neg hfs]
      constructor
      · intro habs
        by_cases hco : ((offsets.getD i 0 : Int) - 40) < 0
        · rw [if_pos hco] at habs
          exact absurd habs (by simp)
        · rw [if_neg hco] at habs
          by_cases hrange : ((offsets.getD i 0 : Int) - 40).toNat +
              segFileSize offsets fileLen i > fileLen
          · rw [if_pos hrange] at habs
            exact absurd habs (by simp)
          · rw [if_neg hrange] at habs
            exact absurd habs (by simp)
      · intro habs
        exact habs.elim
  · intro h7 hne
    by_cases hgt : offsets.getD (i + 1) 0 > offsets.getD i 0
    · rw [segFileSize, if_pos (by omega : i + 1 < 8), if_pos hgt]
    · exfalso
      apply hne
      rw [segFileSize, if_pos (by omega : i + 1 < 8), if_neg hgt]
  · intro h7 hne
    subst h7
    by_cases hgt : fileLen % 4294967296 > offsets.getD 7 0
    · rw [segFileSize, if_neg (by omega : ¬ (7 + 1 < 8)), if_pos hgt, hmod]
    · exfalso
      apply hne
      rw [segFileSize, if_neg (by omega : ¬ (7 + 1 < 8)), if_neg hgt]

/-- Claim C2, witness: the amended theorem applied to the offset table
`[40, 41, 41, 41, 41, 41, 41, 41]`, file length 42 and segment 0. -/
theorem c2_presence_law_witness :
    ((0 : Nat) < 7 → (segFileSize [40, 41, 41, 41, 41, 41, 41, 41] 42 0 = 0 ↔
      [40, 41, 41, 41, 41, 41, 41, 41].getD (0 + 1) 0 ≤
        [40, 41, 41, 41, 41, 41, 41, 41].getD 0 0)) ∧
    ((0 : Nat) = 7 → (segFileSize [40, 41, 41, 41, 41, 41, 41, 41] 42 0 = 0 ↔
      42 ≤ [40, 41, 41, 41, 41, 41, 41, 41].getD 7 0)) ∧
    (∀ (h : PBPHeader) (file : List Nat),
      h.offset = [40, 41, 41, 41, 41, 41, 41, 41] → file.length = 42 →
      (extractSeg h file 0 = SegResult.absent ↔
        segFileSize [40, 41, 41, 41, 41, 41, 41, 41] 42 0 = 0)) ∧
    ((0 : Nat) < 7 → segFileSize [40, 41, 41, 41, 41, 41, 41, 41] 42 0 ≠ 0 →
      segFileSize [40, 41, 41, 41, 41, 41, 41, 41] 42 0 =
        [40, 41, 41, 41, 41, 41, 41, 41].getD (0 + 1) 0 -
          [40, 41, 41, 41, 41, 41, 41, 41].getD 0 0) ∧
    ((0 : Nat) = 7 → segFileSize [40, 41, 41, 41, 41, 41, 41, 41] 42 0 ≠ 0 →
      segFileSize [40, 41, 41, 41, 41, 41, 41, 41] 42 0 =
        42 - [40, 41, 41, 41, 41, 41, 41, 41].getD 7 0) :=
  c2_presence_law [40, 41, 41, 41, 41, 41, 41, 41] 42 0
    (by decide) (by decide) (by decide)

/-- Claim C9, counterexample: the claim quantifies over every successful
pack, but `curr_offset` is 32-bit: a 4294967257-byte file in slot 0
makes the header offsets `[40, 1, 1, 1, 1, 1, 1, 1]`, which is not
monotonically non-decreasing (40 is not at most 1). -/
theorem c9_header_invariant_cex :
    packOffsets c9CexInputs = some [40, 1, 1, 1, 1, 1, 1, 1] ∧
    ¬ ((40 : Nat) ≤ 1) := by
  have key : ∀ bs : List Nat, bs.length = 4294967257 →
      packOffsets [SrcSpec.file (some bs), SrcSpec.null, SrcSpec.null,
        SrcSpec.null, SrcSpec.null, SrcSpec.null, SrcSpec.null,
        SrcSpec.null] = some [40, 1, 1, 1, 1, 1, 1, 1] := by
    intro bs hbs
    rw [packOffsets]
    simp only [packLoop, hbs]
    norm_num
  refine ⟨?_, by decide⟩
  exact key (List.replicate 4294967257 0) (by rw [List.length_replicate])

/-- Claim C9, amended: for every successful pack of 8 slots whose total
source size plus the 40-byte header stays below `2 ^ 32`, the written
header passes `validate_header`, its offsets start at 40 and are
monotonically non-decreasing, and every `NULL` slot's stored offset
equals the running cursor, i.e. the next slot's stored offset. -/
theorem c9_header_invariant (inputs : List SrcSpec) (h : PBPHeader)
    (body : List Nat) (hlen : inputs.length = 8)
    (hp : pack_pbp inputs = some (h, body))
    (hbound : 40 + (inputs.map fun s => (srcBytes s).length).sum <
      4294967296) :
    validate_header h = 0 ∧
    h.offset.getD 0 0 = 40 ∧
    (∀ i, i + 1 < 8 → h.offset.getD i 0 ≤ h.offset.getD (i + 1) 0) ∧
    (∀ i, i + 1 < 8 → inputs.getD i SrcSpec.null = SrcSpec.null →
      h.offset.getD (i + 1) 0 = h.offset.getD i 0) := by
  obtain ⟨segs, hpl, hh, hb⟩ := pack_pbp_inv inputs h body hp
  subst hh
  have hsl : segs.length = 8 := by
    rw [packLoop_length inputs 40 segs hpl, hlen]
  refine ⟨?_, ?_, ?_, ?_⟩
  · rw [validate_header]
    norm_num [packHeader]
  · cases inputs with
    | nil => simp at hlen
    | cons s rest =>
      obtain ⟨bs, tail, ht⟩ := packLoop_head s rest 40 segs hpl
      subst ht
      simp [packHeader]
  · intro i hi
    have hchain := packLoop_chain inputs 40 segs hpl (by omega)
    rw [List.chain'_iff_get] at hchain
    have hlm : (segs.map Prod.fst).length = 8 := by simp [hsl]
    have hpair := hchain i (by omega)
    rw [List.get_eq_getElem, List.get_eq_getElem] at hpair
    show (segs.map Prod.fst).getD i 0 ≤ (segs.map Prod.fst).getD (i + 1) 0
    rw [List.getD_eq_getElem _ 0 (by omega : i < (segs.map Prod.fst).length),
      List.getD_eq_getElem _ 0 (by omega : i + 1 < (segs.map Prod.fst).length)]
    exact hpair
  · intro i hi hnull
    have hres := packLoop_null_slot inputs 40 segs i hpl (by omega) hnull
    exact hres

/-- Claim C9, witness: the amended theorem applied to `c9WitInputs`
(one 1-byte source, seven `NULL` slots). -/
theorem c9_header_invariant_witness :
    validate_header c9WitHeader = 0 ∧
    c9WitHeader.offset.getD 0 0 = 40 ∧
    (∀ i, i + 1 < 8 →
      c9WitHeader.offset.getD i 0 ≤ c9WitHeader.offset.getD (i + 1) 0) ∧
    (∀ i, i + 1 < 8 → c9WitInputs.getD i SrcSpec.null = SrcSpec.null →
      c9WitHeader.offset.getD (i + 1) 0 = c9WitHeader.offset.getD i 0) :=
  c9_header_invariant c9WitInputs c9WitHeader [5] rfl rfl (by decide)

/-- Claim C10: the destination file of a successful pack is exactly the
40 header bytes followed by the present segments' bytes in slot order
with no gaps, so its total length is 40 plus the sum of the source file
sizes. -/
theorem c10_pack_output (inputs : List SrcSpec) (h : PBPHeader)
    (body : List Nat) (hlen : inputs.length = 8)
    (hp : pack_pbp inputs = some (h, body)) :
    packFile inputs = some (headerBytes h ++ body) ∧
    (headerBytes h ++ body).length =
      40 + (inputs.map fun s => (srcBytes s).length).sum ∧
    body = (inputs.map srcBytes).flatten := by
  obtain ⟨segs, hpl, hh, hb⟩ := pack_pbp_inv inputs h body hp
  have hsl : segs.length = 8 := by
    rw [packLoop_length inputs 40 segs hpl, hlen]
  have hsnd := packLoop_snd inputs 40 segs hpl
  refine ⟨?_, ?_, ?_⟩
  · rw [packFile, hp]
    rfl
  · rw [List.length_append, hh, headerBytes_packHeader_length segs hsl,
      hb, hsnd, flatten_srcBytes_length]
  · rw [hb, hsnd]

/-- Claim C10, witness: the theorem applied to `c10WitInputs` (sources
of 2 and 1 bytes), giving a 43-byte container. -/
theorem c10_pack_output_witness :
    packFile c10WitInputs = some (headerBytes c10WitHeader ++ [1, 2, 3]) ∧
    (headerBytes c10WitHeader ++ [1, 2, 3]).length =
      40 + (c10WitInputs.map fun s => (srcBytes s).length).sum ∧
    [1, 2, 3] = (c10WitInputs.map srcBytes).flatten :=
  c10_pack_output c10WitInputs c10WitHeader [1, 2, 3] rfl rfl

theorem unpack_pbp_ok (file : List Nat) (hlen : ¬ file.length < 40)
    (hval : validate_header (parseHeader file) = 0) :
    unpack_pbp file =
      Except.ok ((List.range 8).map (extractSeg (parseHeader file) file)) := by
  simp [unpack_pbp, hlen, hval]

/-- Claim C7: in the extraction loop every segment with computed length
zero is skipped silently (`absent`), and every segment with nonzero
computed length whose corrected offset is negative
(`offset < 40`) or whose corrected range overruns the file is skipped
with the diagnostic (`skipped`); the loop always covers all 8 segments
(`res.length = 8`), so a bad segment never aborts the others. -/
theorem c7_range_guard (file : List Nat) (hlen : 40 ≤ file.length)
    (hval : validate_header (parseHeader file) = 0) :
    ∃ res, unpack_pbp file = Except.ok res ∧ res.length = 8 ∧
      ∀ i, i < 8 →
        (segFileSize (parseHeader file).offset file.length i = 0 →
          res.getD i SegResult.absent = SegResult.absent) ∧
        (segFileSize (parseHeader file).offset file.length i ≠ 0 →
          ((parseHeader file).offset.getD i 0 < 40 ∨
            (parseHeader file).offset.getD i 0 - 40 +
              segFileSize (parseHeader file).offset file.length i >
                file.length) →
          res.getD i SegResult.absent = SegResult.skipped) := by
  refine ⟨(List.range 8).map (extractSeg (parseHeader file) file),
    unpack_pbp_ok file (by omega) hval, by simp, ?_⟩
  intro i hi
  rw [range_eight_map_getD (extractSeg (parseHeader file) file) i
    SegResult.absent hi]
  constructor
  · intro h0
    simp only [extractSeg]
    rw [if_pos h0]
  · intro h0 hrange
    simp only [extractSeg]
    rw [if_neg h0]
    by_cases hco : ((parseHeader file).offset.getD i 0 : Int) - 40 < 0
    · rw [if_pos hco]
    · rw [if_neg hco]
      have hgt : (((parseHeader file).offset.getD i 0 : Int) - 40).toNat +
          segFileSize (parseHeader file).offset file.length i >
            file.length := by
        rcases hrange with hr | hr
        · omega
        · omega
      rw [if_pos hgt]

/-- Claim C7, witness: the theorem applied to `c7FileBytes`, whose
offset table `[0, 10, 10, 10, 10, 10, 10, 10]` makes segments 0 and 7
nonzero-length with negative corrected offsets. -/
theorem c7_range_guard_witness :
    ∃ res, unpack_pbp c7FileBytes = Except.ok res ∧ res.length = 8 ∧
      ∀ i, i < 8 →
        (segFileSize (parseHeader c7FileBytes).offset c7FileBytes.length i = 0 →
          res.getD i SegResult.absent = SegResult.absent) ∧
        (segFileSize (parseHeader c7FileBytes).offset c7FileBytes.length i ≠ 0 →
          ((parseHeader c7FileBytes).offset.getD i 0 < 40 ∨
            (parseHeader c7FileBytes).offset.getD i 0 - 40 +
              segFileSize (parseHeader c7FileBytes).offset c7FileBytes.length i >
                c7FileBytes.length) →
          res.getD i SegResult.absent = SegResult.skipped) :=
  c7_range_guard c7FileBytes (by decide) (by decide)

/-- Claim C6, counterexample: truncating the valid container
`c6FileBytes` (offsets `[40, 41, ..., 41]`, length 42) to 40 bytes makes
`file_length < offsets[7]`, and `unpack_pbp` then treats segment 7 as
absent (silent skip, no diagnostic): the claim says it is skipped with a
printed diagnostic (`skipped`). -/
theorem c6_truncated_cex :
    unpack_pbp (c6FileBytes.take 40) =
      Except.ok [SegResult.written [0], SegResult.absent, SegResult.absent,
        SegResult.absent, SegResult.absent, SegResult.absent,
        SegResult.absent, SegResult.absent] ∧
    ([SegResult.written [0], SegResult.absent, SegResult.absent,
      SegResult.absent, SegResult.absent, SegResult.absent,
      SegResult.absent, SegResult.absent].getD 7 SegResult.absent ≠
        SegResult.skipped) :=
  ⟨rfl, by decide⟩

/-- Claim C6, amended: truncating a valid container (header intact,
lengths below `2 ^ 32`) so that `file_length < offsets[7]` makes
`unpack_pbp` still succeed (exit code 0), with segment 7 skipped
silently as absent (its computed length becomes 0, so no diagnostic is
printed), while every earlier segment whose corrected range is valid
within the truncated length is still extracted to a file. -/
theorem c6_truncated (file : List Nat) (L : Nat) (h40 : 40 ≤ L)
    (hLle : L ≤ file.length) (hfl : file.length < 4294967296)
    (hval : validate_header (parseHeader file) = 0)
    (htrunc : L < (parseHeader file).offset.getD 7 0) :
    ∃ res, unpack_pbp (file.take L) = Except.ok res ∧
      res.getD 7 SegResult.absent = SegResult.absent ∧
      ∀ i, i < 7 → segFileSize (parseHeader file).offset L i ≠ 0 →
        40 ≤ (parseHeader file).offset.getD i 0 →
        (parseHeader file).offset.getD i 0 - 40 +
          segFileSize (parseHeader file).offset L i ≤ L →
        ∃ bs, res.getD i SegResult.absent = SegResult.written bs := by
  have htl : (file.take L).length = L := by
    rw [List.length_take]
    omega
  have hph : parseHeader (file.take L) = parseHeader file :=
    parseHeader_take file L h40
  refine ⟨(List.range 8).map
      (extractSeg (parseHeader (file.take L)) (file.take L)),
    unpack_pbp_ok (file.take L) (by omega) (by rw [hph]; exact hval),
    ?_, ?_⟩
  · rw [range_eight_map_getD (extractSeg (parseHeader (file.take L))
      (file.take L)) 7 SegResult.absent (by norm_num)]
    have hfs : segFileSize (parseHeader (file.take L)).offset
        (file.take L).length 7 = 0 := by
      rw [hph, htl, segFileSize, if_neg (by norm_num : ¬ (7 + 1 < 8)),
        Nat.mod_eq_of_lt (by omega : L < 4294967296), if_neg (by omega)]
    simp only [extractSeg]
    rw [if_pos hfs]
  · intro i hi7 hfs hoff hrange
    rw [range_eight_map_getD (extractSeg (parseHeader (file.take L))
      (file.take L)) i SegResult.absent (by omega)]
    simp only [extractSeg]
    rw [hph, htl, if_neg hfs]
    have hco : ¬ (((parseHeader file).offset.getD i 0 : Int) - 40 < 0) := by
      omega
    rw [if_neg hco]
    have hng : ¬ ((((parseHeader file).offset.getD i 0 : Int) - 40).toNat +
        segFileSize (parseHeader file).offset L i > L) := by
      omega
    rw [if_neg hng]
    exact ⟨_, rfl⟩

/-- Claim C6, witness: the amended theorem applied to `c6FileBytes`
truncated to 40 bytes; segment 0 (range `[40, 41)`) is still valid
within the truncated length. -/
theorem c6_truncated_witness :
    ∃ res, unpack_pbp (c6FileBytes.take 40) = Except.ok res ∧
      res.getD 7 SegResult.absent = SegResult.absent ∧
      ∀ i, i < 7 → segFileSize (parseHeader c6FileBytes).offset 40 i ≠ 0 →
        40 ≤ (parseHeader c6FileBytes).offset.getD i 0 →
        (parseHeader c6FileBytes).offset.getD i 0 - 40 +
          segFileSize (parseHeader c6FileBytes).offset 40 i ≤ 40 →
        ∃ bs, res.getD i SegResult.absent = SegResult.written bs :=
  c6_truncated c6FileBytes 40 (by decide) (by decide) (by decide)
    (by decide) (by decide)
